import Mathlib

/-!
# Verification of the POLoPT Carbon coefficient pipeline

Shallow embedding of the core pipeline of `polopt_carbon` (core.py, rules.py
and the sibling pipeline variants `core_with_comments.py` /
`core_after_gemini.py`), together with theorems settling the frozen claims
about the natural-language specification.

Modelling conventions:
- a pandas float cell is `Option ℚ` (`none` = NaN / absent);
- the `LULC` column after `pd.to_numeric(..., errors="coerce")` is
  `Option ℤ` (`none` = coercion failure / NaN);
- a dataframe is a `List` of typed row structures; a left merge with
  possibly duplicated right keys produces one output row per match and one
  `none`-valued row when there is no match, exactly like `pandas.merge(...,
  how="left")`;
- the geospatial primitives (`gpd.clip`, `rasterio.features.rasterize`) are
  external black boxes; they are embedded by their documented burn semantics
  (each shape's covered cells receive its burn value, later shapes
  overwrite earlier ones, background `fill=0`).
-/

namespace PoloptCarbon

/-! ## rules.py — `apply_fallback_rules`

### Column-level view

`rules.py` first executes `df["LULC"] = pd.to_numeric(df["LULC"], …)`
(reading the `LULC` column raises `KeyError` when it is missing), then
explicitly raises `KeyError("Expected column 'CARBON_VALUE' not found in
dataframe.")` when `CARBON_VALUE` is missing, then adds the
`CARBON_VALUE_ADJ` and `rule_applied` columns.  The `Except String` result
models exactly the `KeyError` outcomes; the error payload is the missing
key / message. -/

def apply_fallback_rules_columns (cols : List String) : Except String (List String) :=
  if "LULC" ∉ cols then
    Except.error "LULC"
  else if "CARBON_VALUE" ∉ cols then
    Except.error "Expected column 'CARBON_VALUE' not found in dataframe."
  else
    Except.ok (cols
      ++ (if "CARBON_VALUE_ADJ" ∈ cols then [] else ["CARBON_VALUE_ADJ"])
      ++ (if "rule_applied" ∈ cols then [] else ["rule_applied"]))

/-- Columns of `df_out` in `core.py` at line 167 (`apply_fallback_rules(df_out)`)
for a run in which the zone layer carries the `REGION`, `GEZ_TERM`,
`FRONTIER` and `CODE` attributes and a coefficient lookup was provided and
joined: the cross-tab columns `LULC`, `CZ_ID`, `Count` (line 94), the kept
zone-attribute columns (lines 106–111), and the lookup's `carbon_value`
column added by the merge at lines 136–140.  Note the lower-case spelling
`carbon_value` coming from the lookup CSV. -/
def core_df_out_columns : List String :=
  ["LULC", "CZ_ID", "Count", "REGION", "GEZ_TERM", "FRONTIER", "CODE", "carbon_value"]

/-! ### Row-level view

When both required columns are present the engine is a per-row computation
driven by two global reference means.  `RuleRow` carries the two columns the
engine reads (`LULC` after coercion, `CARBON_VALUE`); `RuleOutRow` adds the
two columns it writes. -/

structure RuleRow where
  lulc : Option ℤ
  carbon_value : Option ℚ
deriving Repr, DecidableEq

structure RuleOutRow where
  lulc : Option ℤ
  carbon_value : Option ℚ
  carbon_value_adj : Option ℚ
  rule_applied : String
deriving Repr, DecidableEq

/-- The `config` dictionary of `apply_fallback_rules`:
`savanna_percent_of_forest` is `some frac` when the key is present
(rule 1 requires the key: `"savanna_percent_of_forest" in config`), the two
Booleans model `config.get(key, False)`. -/
structure RuleConfig where
  savanna_percent_of_forest : Option ℚ
  wetland_woody_equals_forest : Bool
  marsh_equals_shrub : Bool
deriving Repr, DecidableEq

/-- The default config built when `config is None` (rules.py lines 31–36). -/
def defaultRuleConfig : RuleConfig :=
  ⟨some (2/5), true, true⟩

/-- `df.loc[df["LULC"].isin(codes), "CARBON_VALUE"]` restricted to the
present (non-NaN) values — the values `Series.mean()` averages over. -/
def presentVals (rows : List RuleRow) (codes : List ℤ) : List ℚ :=
  rows.filterMap fun r =>
    match r.lulc with
    | some l => if l ∈ codes then r.carbon_value else none
    | none => none

/-- `Series.mean()`: the mean of the present values, NaN (= `none`) when
there are none (pandas skips NaN and returns NaN on an empty selection). -/
def refMean (rows : List RuleRow) (codes : List ℤ) : Option ℚ :=
  let vs := presentVals rows codes
  if vs.isEmpty then none else some (vs.sum / (vs.length : ℚ))

/-- Rendering of the savanna rule tag
`f"savanna={frac * 100:.0f}%_forest"` (integer rendering of the percent). -/
def savannaTag (frac : ℚ) : String :=
  "savanna=" ++ toString (round (frac * 100) : ℤ) ++ "%_forest"

/-- One row of `apply_fallback_rules` after the three vectorized rules.
Each rule touches a row iff its global guard holds, the row is in the
rule's LULC class set, and the row's `CARBON_VALUE_ADJ` is still NaN; a
touched row gets the rule's fill value and tag.  The row's `LULC` and
`CARBON_VALUE` columns are never written. -/
def applyRulesRow (cfg : RuleConfig) (forest_ref shrub_ref : Option ℚ)
    (r : RuleRow) : RuleOutRow :=
  -- df["CARBON_VALUE_ADJ"] = df["CARBON_VALUE"]; df["rule_applied"] = None
  let adj0 := r.carbon_value
  let tag0 : Option String := none
  -- rule 1: savannas (8–9) = fraction of forest, if missing
  let s1 : Option ℚ × Option String :=
    match forest_ref, cfg.savanna_percent_of_forest with
    | some fr, some frac =>
        if (r.lulc == some 8 || r.lulc == some 9) && adj0.isNone then
          (some (fr * frac), some (savannaTag frac))
        else (adj0, tag0)
    | _, _ => (adj0, tag0)
  -- rule 2: woody wetlands (11) = forest value if missing
  let s2 : Option ℚ × Option String :=
    match cfg.wetland_woody_equals_forest, forest_ref with
    | true, some fr =>
        if r.lulc == some 11 && s1.1.isNone then
          (some fr, some "wetland_woody=forest")
        else s1
    | _, _ => s1
  -- rule 3: marsh (11) = shrub value if missing and no forest rule applied
  let s3 : Option ℚ × Option String :=
    match cfg.marsh_equals_shrub, shrub_ref with
    | true, some sr =>
        if r.lulc == some 11 && s2.1.isNone then
          (some sr, some "wetland_to_shrub")
        else s2
    | _, _ => s2
  -- df["rule_applied"] = df["rule_applied"].fillna("none")
  ⟨r.lulc, r.carbon_value, s3.1, s3.2.getD "none"⟩

/-- `apply_fallback_rules` (rules.py lines 12–89) on a frame whose `LULC`
column is already numeric-coerced and whose `CARBON_VALUE` column exists:
compute the forest reference (mean over LULC ∈ {1,2,3,4}) and the shrub
reference (mean over LULC ∈ {6,7}), then apply the three rules row-wise. -/
def apply_fallback_rules (rows : List RuleRow) (cfg : RuleConfig) : List RuleOutRow :=
  let forest_ref := refMean rows [1, 2, 3, 4]
  let shrub_ref := refMean rows [6, 7]
  rows.map (applyRulesRow cfg forest_ref shrub_ref)

/-- Projection of an output row back to the two columns the engine reads:
re-running the engine on its own output reads exactly these (the second
`pd.to_numeric` is the identity on the already-numeric `LULC` column). -/
def ruleOutToRow (r : RuleOutRow) : RuleRow :=
  ⟨r.lulc, r.carbon_value⟩

/-! ## core.py — Spatial Overlay Engine

The grid is flattened to a list of cells indexed `0, 1, …`; a rasterized
shape is the list of cell indices it covers.  `rasterize` embeds
`rasterio.features.rasterize(shapes, out_shape, transform, fill=0)` by its
documented burn semantics: every covered cell receives the shape's burn
value, later shapes overwrite earlier ones, all remaining cells hold the
background value `0`. -/

def rasterize (shapes : List (List ℕ × ℤ)) (n : ℕ) : List ℤ :=
  (List.range n).map fun i =>
    shapes.foldl (fun acc s => if i ∈ s.1 then s.2 else acc) 0

/-- One member of `gdf_zones_clip = gpd.clip(gdf_zones, gdf_boundary)`:
`gpd.clip` retains the clipped geometry together with the polygon's
attributes and its *original* pandas index label (`origIndex`; the default
`RangeIndex` position in `gdf_zones`), which the clip does not reset. -/
structure ClippedZone where
  origIndex : ℕ
  cells : List ℕ
  region : String
  gez : String
  frontier : String
deriving Repr, DecidableEq

/-- Zone rasterization in `core.py` lines 71–82: the burn values are
`gdf_zones_clip.index + 1`, i.e. the *original* index label plus one. -/
def coreZoneRaster (zs : List ClippedZone) (n : ℕ) : List ℤ :=
  rasterize (zs.map fun z => (z.cells, (z.origIndex : ℤ) + 1)) n

/-- The cells selected by `mask = (cz_raster > 0) & (~np.isnan(lulc_arr))`
(`core.py` line 88), as `(LULC value, zone id)` pairs: a cell survives iff
its zone id is positive and its land-cover value is not NaN. -/
def maskedCells (lulc : List (Option ℤ)) (cz : List ℤ) : List (ℤ × ℤ) :=
  (lulc.zip cz).filterMap fun p =>
    match p.1 with
    | some l => if 0 < p.2 then some (l, p.2) else none
    | none => none

/-- Insertion of an integer into a `≤`-sorted list. -/
def insertSorted (x : ℤ) : List ℤ → List ℤ
  | [] => [x]
  | y :: ys => if x ≤ y then x :: y :: ys else y :: insertSorted x ys

/-- Ascending insertion sort (the category ordering `pd.crosstab` uses). -/
def sortInts (l : List ℤ) : List ℤ :=
  l.foldr insertSorted []

/-- One row of the stacked cross-tabulation
(`pd.crosstab(lulc_flat, cz_flat).stack().reset_index()`, columns renamed
to `LULC`, `CZ_ID`, `Count` at `core.py` lines 92–94). -/
structure CTRow where
  lulc : ℤ
  cz : ℤ
  count : ℕ
deriving Repr, DecidableEq

/-- `pd.crosstab(lulc_flat, cz_flat).stack()`: one row for every pair of an
observed land-cover value and an observed zone id (both in ascending
category order, row-major), counting the masked cells realizing the pair;
pairs never realized appear with count 0, values never observed at all
produce no row. -/
def crossTab (cells : List (ℤ × ℤ)) : List CTRow :=
  let ls := sortInts (cells.map Prod.fst).dedup
  let zs := sortInts (cells.map Prod.snd).dedup
  ls.flatMap fun l =>
    zs.map fun z =>
      ⟨l, z, (cells.filter fun c => c.1 == l && c.2 == z).length⟩

/-! ## core.py — Attribute Resolver (zone-attribute join) -/

/-- One row of the `attrs` table built at `core.py` lines 100–111:
`gdf_zones_clip.reset_index(drop=True)` discards the original index, and
the following `reset_index().rename(columns={"index": "CZ_ID"})` makes
`CZ_ID` the 0-based *position* of the polygon in the clipped collection. -/
structure ZoneAttrRow where
  cz_id : ℤ
  region : String
  gez : String
  frontier : String
deriving Repr, DecidableEq

/-- The `attrs` table of `core.py` lines 100–111 (attribute columns kept:
`REGION`, `GEZ_TERM`, `FRONTIER`; the key is the 0-based position). -/
def coreZoneAttrs (zs : List ClippedZone) : List ZoneAttrRow :=
  zs.enum.map fun p => ⟨(p.1 : ℤ), p.2.region, p.2.gez, p.2.frontier⟩

/-- A cross-tab row enriched with the (possibly missing) zone attributes. -/
structure JoinedRow where
  lulc : ℤ
  cz : ℤ
  count : ℕ
  region : Option String
  gez : Option String
  frontier : Option String
deriving Repr, DecidableEq

/-- `df_out = df_ct.merge(attrs, on="CZ_ID", how="left")` (`core.py`
line 113): each cross-tab row is paired with every attribute row whose
`CZ_ID` equals its zone id; a row with no match keeps absent attributes. -/
def joinZoneAttrs (ct : List CTRow) (attrs : List ZoneAttrRow) : List JoinedRow :=
  ct.flatMap fun r =>
    match attrs.filter (fun a => a.cz_id == r.cz) with
    | [] => [⟨r.lulc, r.cz, r.count, none, none, none⟩]
    | ms => ms.map fun a => ⟨r.lulc, r.cz, r.count, some a.region, some a.gez, some a.frontier⟩

/-! ## core.py — coefficient lookup join (lines 118–151)

After normalization (`astype(str).str.strip()` on the key columns) the
frame rows and lookup rows carry plain strings; `LULC` is `astype(int)`. -/

/-- One row of `df_out` just before the coefficient-lookup merge, with the
key columns normalized to stripped strings. -/
structure PreRow where
  lulc : ℤ
  cz : ℤ
  count : ℕ
  region : String
  gez : String
  frontier : String
deriving Repr, DecidableEq

/-- One row of the Ruesch & Gibbs lookup table `lut` after normalization.
`carbon_value` is `Option ℚ` because a CSV cell may be empty (NaN). -/
structure LutRow where
  region : String
  gez : String
  frontier : String
  lulc : ℤ
  carbon_value : Option ℚ
deriving Repr, DecidableEq

/-- `PreRow` extended with the joined `carbon_value`. -/
structure PostRow where
  lulc : ℤ
  cz : ℤ
  count : ℕ
  region : String
  gez : String
  frontier : String
  carbon_value : Option ℚ
deriving Repr, DecidableEq

/-- The lookup entries matching a frame row on the primary 4-key
`["REGION", "GEZ_TERM", "FRONTIER", "LULC"]` (`core.py` lines 136–140). -/
def primaryMatches (lut : List LutRow) (r : PreRow) : List LutRow :=
  lut.filter fun e =>
    e.region == r.region && e.gez == r.gez && e.frontier == r.frontier && e.lulc == r.lulc

/-- The primary ("semantic") left merge of `core.py` lines 136–140. -/
def primaryJoin (df : List PreRow) (lut : List LutRow) : List PostRow :=
  df.flatMap fun r =>
    match primaryMatches lut r with
    | [] => [⟨r.lulc, r.cz, r.count, r.region, r.gez, r.frontier, none⟩]
    | ms => ms.map fun e => ⟨r.lulc, r.cz, r.count, r.region, r.gez, r.frontier, e.carbon_value⟩

/-- The degraded CODE-path merge of `core.py` lines 147–151: the joined
`carbon_value` column is dropped and the frame is re-merged with
`lut[["LULC", "carbon_value"]]` on the single key `LULC`. -/
def codeFallbackJoin (df : List PreRow) (lut : List LutRow) : List PostRow :=
  df.flatMap fun r =>
    match lut.filter (fun e => e.lulc == r.lulc) with
    | [] => [⟨r.lulc, r.cz, r.count, r.region, r.gez, r.frontier, none⟩]
    | ms => ms.map fun e => ⟨r.lulc, r.cz, r.count, r.region, r.gez, r.frontier, e.carbon_value⟩

/-- The guard of `core.py` line 143:
`df_out["carbon_value"].isna().all() and "CODE" in df_out.columns`.
`hasCODE` records whether the zone layer supplied a `CODE` attribute
(kept at lines 106–111). -/
def usesCodeFallback (df : List PreRow) (lut : List LutRow) (hasCODE : Bool) : Bool :=
  ((primaryJoin df lut).all fun r => r.carbon_value.isNone) && hasCODE

/-- The whole coefficient-lookup stage (`core.py` lines 134–151): the
primary 4-key merge, replaced by the CODE-path merge when the guard fires.
(When the guard fires every primary-join row is an unmatched copy of its
frame row, so re-merging the merged frame equals re-merging `df`.) -/
def lookupStage (df : List PreRow) (lut : List LutRow) (hasCODE : Bool) : List PostRow :=
  if usesCodeFallback df lut hasCODE then codeFallbackJoin df lut
  else primaryJoin df lut

/-- "Zero matches across the whole dataset": no frame row has a primary
4-key match in the lookup table. -/
def noPrimaryMatch (df : List PreRow) (lut : List LutRow) : Bool :=
  df.all fun r => (primaryMatches lut r).isEmpty

/-! ## core.py — area-weighted aggregation and the 17-row table
(lines 179–194) -/

/-- One row of the frame entering the aggregation: its land-cover code,
its pixel count (`Count`, the weight `w`), and the value of `base_col`
(`carbon_value_adj` if present, else `carbon_value`). -/
structure CoefRow where
  lulc : ℤ
  count : ℕ
  value : Option ℚ
deriving Repr, DecidableEq

/-- The rows surviving `df_out.dropna(subset=[base_col])` that belong to a
given land-cover code. -/
def codeRows (rows : List CoefRow) (c : ℤ) : List CoefRow :=
  rows.filter fun r => r.value.isSome && r.lulc == c

/-- `total_w` of the `groupby("LULC")` aggregation for a code: the sum of
`Count` over the code's present-value rows. -/
def total_w (rows : List CoefRow) (c : ℤ) : ℚ :=
  ((codeRows rows c).map fun r => (r.count : ℚ)).sum

/-- `total_wcv` for a code: the sum of `w * base_col` over the code's
present-value rows. -/
def total_wcv (rows : List CoefRow) (c : ℤ) : ℚ :=
  ((codeRows rows c).map fun r => (r.count : ℚ) * r.value.getD 0).sum

/-- The `c_above` value the `invest` frame associates to a code: absent
when the code has no present-value row (no group after `dropna`), NaN
(= `none`) when the group exists but `total_wcv / total_w` is `0 / 0`
(all its counts are zero), else the weighted mean. -/
def investValue (rows : List CoefRow) (c : ℤ) : Option ℚ :=
  if (codeRows rows c).isEmpty then none
  else if total_w rows c = 0 then none
  else some (total_wcv rows c / total_w rows c)

/-- One row of the final fixed table `full`.  `defaulted` is the spec's
`AggregatedRow.defaulted` flag, realized in the code as "the
`fillna({"c_above": 0.0})` of line 193 filled this row" (its merged
`c_above` was absent). -/
structure AggRow where
  lucode : ℤ
  c_above : ℚ
  defaulted : Bool
deriving Repr, DecidableEq

/-- The row of `full` for one code. -/
def aggAt (rows : List CoefRow) (c : ℤ) : AggRow :=
  match investValue rows c with
  | some v => ⟨c, v, false⟩
  | none => ⟨c, 0, true⟩

/-- `full = pd.DataFrame({"lucode": list(range(1, 18))}).merge(invest,
on="lucode", how="left").fillna({"c_above": 0.0})` (`core.py` lines
190–194).  The `invest` frame has unique `lucode` keys (it is a
`groupby("LULC")` result), so the left merge is a per-code lookup; codes of
`invest` outside 1..17 are dropped by the left merge. -/
def fullTable (rows : List CoefRow) : List AggRow :=
  (List.range 17).map fun i : ℕ => aggAt rows ((i : ℤ) + 1)

/-! ## Expert Override Layer
(`core_with_comments.py` lines 263–275, `core_after_gemini.py` lines
169–173) -/

/-- One row of the expert-override CSV; `c_above_override` may be NaN. -/
structure OverrideRow where
  lucode : ℤ
  c_above_override : Option ℚ
deriving Repr, DecidableEq

/-- `full.merge(expert_df, on="lucode", how="left")` followed by
`full["c_above"] = full["c_above_override"].combine_first(full["c_above"])`:
each row of `full` is paired with every override row sharing its `lucode`
(none → the row is kept unchanged), and `combine_first` takes the override
value when it is present, the existing `c_above` otherwise. -/
def applyOverrides (full : List AggRow) (ov : List OverrideRow) : List AggRow :=
  full.flatMap fun r =>
    match ov.filter (fun o => o.lucode == r.lucode) with
    | [] => [r]
    | ms => ms.map fun o => ⟨r.lucode, o.c_above_override.getD r.c_above, r.defaulted⟩

/-! ## Concrete run fragments used in the theorems -/

/-- Two zone polygons, both surviving the clip with their original index
labels 0 and 1, covering cells 0 and 1 respectively, with distinct
attributes. -/
def zonesC1 : List ClippedZone :=
  [⟨0, [0], "R1", "G1", "0"⟩, ⟨1, [1], "R2", "G2", "1"⟩]

/-- A 2-cell land-cover grid, both cells holding class 1. -/
def lulcC1 : List (Option ℤ) := [some 1, some 1]

/-- A one-row frame and a one-row lookup table with no primary 4-key
match (every key column differs). -/
def dfC7 : List PreRow := [⟨1, 1, 1, "A", "B", "0"⟩]

/-- Lookup table for the C7 counterexample: its only entry shares the
`LULC` code 1 with the frame row but no other key. -/
def lutC7 : List LutRow := [⟨"X", "Y", "1", 1, some 5⟩]

/-- The spec's worked override example: an aggregated 17-row table whose
only non-default entry is lucode 3 = 50.0. -/
def aggC10 : List AggRow :=
  [⟨1, 0, true⟩, ⟨2, 0, true⟩, ⟨3, 50, false⟩, ⟨4, 0, true⟩, ⟨5, 0, true⟩,
   ⟨6, 0, true⟩, ⟨7, 0, true⟩, ⟨8, 0, true⟩, ⟨9, 0, true⟩, ⟨10, 0, true⟩,
   ⟨11, 0, true⟩, ⟨12, 0, true⟩, ⟨13, 0, true⟩, ⟨14, 0, true⟩, ⟨15, 0, true⟩,
   ⟨16, 0, true⟩, ⟨17, 0, true⟩]

/-- The spec's worked override collection {lucode 3 ↦ 999.0, lucode 9 ↦ 5.0}. -/
def ovC10 : List OverrideRow := [⟨3, some 999⟩, ⟨9, some 5⟩]

/-! ## Theorems settling the claims -/

/-- **C1** (code bug). On a run with two clipped polygons (original index
labels 0 and 1), the rasterizer burns zone ids 1 and 2
(`gdf_zones_clip.index + 1`), but the attribute table keys the polygons by
their 0-based positions 0 and 1, so the zone-attribute join hands the
cross-tab row of zone id 1 the attributes of the *second* polygon and
leaves the row of zone id 2 without a match — not the 1:1 join by position
that the claim (and the sibling implementations, which add 1 to the
attribute key) describe. -/
theorem claim_C1_zone_attribute_join_off_by_one :
    coreZoneRaster zonesC1 2 = [1, 2] ∧
    joinZoneAttrs (crossTab (maskedCells lulcC1 (coreZoneRaster zonesC1 2)))
        (coreZoneAttrs zonesC1) =
      [⟨1, 1, 1, some "R2", some "G2", some "1"⟩,
       ⟨1, 2, 1, none, none, none⟩] := by
  constructor <;> rfl

/-- **C2.** `apply_fallback_rules` raises a `KeyError` whenever its input
frame lacks a column named exactly `CARBON_VALUE`; the `core.py` pipeline's
`df_out` carries the lower-case column `carbon_value` instead, so whenever
a coefficient lookup was joined the fallback-rules stage raises the
`KeyError` (and nothing in `core.py`/`cli.py` catches it, so the run
aborts). -/
theorem claim_C2_fallback_rules_keyerror :
    (∀ cols : List String, "CARBON_VALUE" ∉ cols →
        ∃ msg, apply_fallback_rules_columns cols = Except.error msg) ∧
    "carbon_value" ∈ core_df_out_columns ∧
    apply_fallback_rules_columns core_df_out_columns =
      Except.error "Expected column 'CARBON_VALUE' not found in dataframe." := by
  refine ⟨fun cols h => ?_, by decide, by rfl⟩
  by_cases hl : "LULC" ∈ cols
  · exact ⟨"Expected column 'CARBON_VALUE' not found in dataframe.",
      by simp [apply_fallback_rules_columns, hl, h]⟩
  · exact ⟨"LULC", by simp [apply_fallback_rules_columns, hl]⟩

/-- Witness for C2: a frame with only the `LULC` column lacks
`CARBON_VALUE` and makes the engine raise. -/
theorem claim_C2_fallback_rules_keyerror_witness :
    "CARBON_VALUE" ∉ (["LULC"] : List String) ∧
    ∃ msg, apply_fallback_rules_columns ["LULC"] = Except.error msg :=
  ⟨by decide, claim_C2_fallback_rules_keyerror.1 ["LULC"] (by decide)⟩

/-- The `lucode` of the table row built for a code is that code. -/
lemma aggAt_lucode (rows : List CoefRow) (c : ℤ) : (aggAt rows c).lucode = c := by
  unfold aggAt
  cases investValue rows c <;> simp

/-- A code none of whose rows carries a present value has no group after
`dropna`. -/
lemma codeRows_eq_nil_of_all_absent {rows : List CoefRow} {c : ℤ}
    (h : ∀ r ∈ rows, r.lulc = c → r.value = none) : codeRows rows c = [] := by
  rw [codeRows, List.filter_eq_nil_iff]
  intro r hr
  simp only [Bool.and_eq_true, beq_iff_eq, Option.isSome_iff_exists, not_and]
  rintro ⟨v, hv⟩ he
  rw [h r hr he] at hv
  cases hv

/-- **C4.** The weighted aggregation for a code equals
Σ(pixel_count × value) / Σ(pixel_count) over the code's present-value rows
(absent-value rows contribute to neither sum); a code all of whose values
are absent ends up as 0.0 with `defaulted = true`, never NaN; and the
2-row case with counts {10, 30} and values {100, 200} yields 175.0. -/
theorem claim_C4_weighted_aggregation :
    (∀ (rows : List CoefRow) (c : ℤ),
        ((rows.filter fun r => r.value.isSome && r.lulc == c).map
            fun r => (r.count : ℚ)).sum ≠ 0 →
        investValue rows c =
          some (((rows.filter fun r => r.value.isSome && r.lulc == c).map
              fun r => (r.count : ℚ) * r.value.getD 0).sum /
            ((rows.filter fun r => r.value.isSome && r.lulc == c).map
              fun r => (r.count : ℚ)).sum)) ∧
    (∀ (rows : List CoefRow) (c : ℤ),
        (∀ r ∈ rows, r.lulc = c → r.value = none) →
        aggAt rows c = ⟨c, 0, true⟩) ∧
    investValue [⟨5, 10, some 100⟩, ⟨5, 30, some 200⟩] 5 = some 175 := by
  refine ⟨fun rows c h => ?_, fun rows c h => ?_, ?_⟩
  · have hw : total_w rows c ≠ 0 := h
    have hne : ¬((codeRows rows c).isEmpty = true) := by
      intro he
      rw [List.isEmpty_iff] at he
      exact hw (by simp [total_w, he])
    simp only [investValue, if_neg hne, if_neg hw]
    rfl
  · have he := codeRows_eq_nil_of_all_absent h
    simp [aggAt, investValue, he]
  · norm_num [investValue, codeRows, total_w, total_wcv, List.filter]

/-- Witness for C4: the spec's 2-row case discharges the nonzero-weight
hypothesis (total weight 40) and the all-absent hypothesis (on a one-row
frame with an absent value). -/
theorem claim_C4_weighted_aggregation_witness :
    investValue [⟨5, 10, some 100⟩, ⟨5, 30, some 200⟩] 5 =
      some (((([⟨5, 10, some 100⟩, ⟨5, 30, some 200⟩] :
            List CoefRow).filter fun r => r.value.isSome && r.lulc == 5).map
            fun r => (r.count : ℚ) * r.value.getD 0).sum /
        ((([⟨5, 10, some 100⟩, ⟨5, 30, some 200⟩] :
            List CoefRow).filter fun r => r.value.isSome && r.lulc == 5).map
            fun r => (r.count : ℚ)).sum) ∧
    aggAt [⟨7, 4, none⟩] 7 = ⟨7, 0, true⟩ :=
  ⟨claim_C4_weighted_aggregation.1 [⟨5, 10, some 100⟩, ⟨5, 30, some 200⟩] 5
      (by norm_num [List.filter]),
   claim_C4_weighted_aggregation.2.1 [⟨7, 4, none⟩] 7 (by simp)⟩

/-- **C3.** For every input, the final coefficient table has exactly 17
rows with land-cover codes 1..17 in ascending order, and every code with
no supporting rows (or whose aggregated value is absent) appears with
`carbon_value` 0.0 and `defaulted = true`. -/
theorem claim_C3_seventeen_row_contract (rows : List CoefRow) :
    (fullTable rows).length = 17 ∧
    (fullTable rows).map AggRow.lucode =
      [1, 2, 3, 4, 5, 6, 7, 8, 9, 10, 11, 12, 13, 14, 15, 16, 17] ∧
    (∀ c : ℤ, 1 ≤ c → c ≤ 17 →
      ((∀ r ∈ rows, r.lulc ≠ c) ∨ investValue rows c = none) →
      (⟨c, 0, true⟩ : AggRow) ∈ fullTable rows) := by
  refine ⟨by simp only [fullTable, List.length_map, List.length_range], ?_, ?_⟩
  · have h : (fullTable rows).map AggRow.lucode =
        (List.range 17).map fun i : ℕ => ((i : ℤ) + 1) := by
      simp only [fullTable, List.map_map, Function.comp_def]
      exact List.map_congr_left fun i _ => aggAt_lucode rows ((i : ℤ) + 1)
    rw [h]
    decide
  · intro c h1 h17 hc
    have hinv : investValue rows c = none := by
      rcases hc with hno | hi
      · have he : codeRows rows c = [] :=
          codeRows_eq_nil_of_all_absent fun r hr hrc => absurd hrc (hno r hr)
        simp [investValue, he]
      · exact hi
    have hi : (c - 1).toNat ∈ List.range 17 := by
      rw [List.mem_range]
      omega
    have hic : ((((c - 1).toNat : ℕ) : ℤ)) + 1 = c := by omega
    have hmem : aggAt rows ((((c - 1).toNat : ℕ) : ℤ) + 1) ∈
        (List.range 17).map fun i : ℕ => aggAt rows ((i : ℤ) + 1) :=
      List.mem_map_of_mem (fun i : ℕ => aggAt rows ((i : ℤ) + 1)) hi
    rw [hic] at hmem
    have hmem' : aggAt rows c ∈ fullTable rows := hmem
    simpa [aggAt, hinv] using hmem'

/-- Witness for C3: on the empty coefficient frame, code 5 has no
supporting row and appears defaulted to 0.0. -/
theorem claim_C3_seventeen_row_contract_witness :
    (⟨5, 0, true⟩ : AggRow) ∈ fullTable [] :=
  (claim_C3_seventeen_row_contract []).2.2 5 (by norm_num) (by norm_num)
    (Or.inl (by simp))

/-- Rasterizing an empty shape collection leaves every cell at the
background value 0. -/
lemma coreZoneRaster_nil (n : ℕ) : coreZoneRaster [] n = List.replicate n 0 := by
  show (List.range n).map (fun _ => (0 : ℤ)) = List.replicate n 0
  rw [List.map_const', List.length_range]

/-- No cell passes the `cz_raster > 0` mask over an all-zero zone grid. -/
lemma maskedCells_zero (lulc : List (Option ℤ)) (n : ℕ) :
    maskedCells lulc (List.replicate n 0) = [] := by
  induction lulc generalizing n with
  | nil => rfl
  | cons a t ih =>
    cases n with
    | zero => rfl
    | succ m =>
      have h : maskedCells (a :: t) (List.replicate (m + 1) 0) =
          maskedCells t (List.replicate m 0) := by
        simp only [List.replicate_succ, maskedCells, List.zip_cons_cons,
          List.filterMap_cons]
        cases a <;> simp
      rw [h, ih]

/-- **C8.** When the clipped zone collection is empty the pipeline does
not fail: the zone grid is all zeros, the cross-tabulation and every
downstream frame are empty, and the final table is the all-default 17-row
result. (The `rasterize` primitive is an external black box; it is
modelled by its burn contract, under which an empty shape collection
yields the background fill.) -/
theorem claim_C8_empty_clip_is_not_an_error (lulc : List (Option ℤ))
    (attrs : List ZoneAttrRow) (cfg : RuleConfig) :
    coreZoneRaster [] lulc.length = List.replicate lulc.length 0 ∧
    crossTab (maskedCells lulc (coreZoneRaster [] lulc.length)) = [] ∧
    joinZoneAttrs [] attrs = [] ∧
    apply_fallback_rules [] cfg = [] ∧
    fullTable [] = ((List.range 17).map fun i : ℕ => ⟨(i : ℤ) + 1, 0, true⟩) := by
  refine ⟨coreZoneRaster_nil _, ?_, rfl, rfl, ?_⟩
  · rw [coreZoneRaster_nil, maskedCells_zero]
    rfl
  · exact List.map_congr_left fun i _ => by simp [aggAt, investValue, codeRows]

/-- **C10** (counterexample to the worked example). Applying the override
collection {3 ↦ 999.0, 9 ↦ 5.0} to the spec's aggregated 17-row table
(lucode 3 = 50.0, all others defaulted 0.0) *changes* lucode 9 from 0.0 to
5.0: the 17-row table always contains a row for lucode 9, so the left
merge finds it and `combine_first` applies the override — it is not
ignored as the spec's example predicts. -/
theorem claim_C10_lucode9_override_not_ignored :
    (applyOverrides aggC10 ovC10).filter (fun r => r.lucode == 9) = [⟨9, 5, true⟩] ∧
    aggC10.filter (fun r => r.lucode == 9) = [⟨9, 0, true⟩] := by
  constructor <;> rfl

/-- A filter by a key that occurs at most once (`Nodup` keys) returns the
`find?` result as a zero- or one-element list. -/
lemma filter_key_eq_find_toList {α β : Type} [BEq β] [LawfulBEq β] (key : α → β)
    (l : List α) (c : β) (h : (l.map key).Nodup) :
    l.filter (fun o => key o == c) = (l.find? fun o => key o == c).toList := by
  induction l with
  | nil => rfl
  | cons a t ih =>
    simp only [List.map_cons, List.nodup_cons, List.mem_map] at h
    by_cases ha : key a == c
    · have ht : t.filter (fun o => key o == c) = [] := by
        rw [List.filter_eq_nil_iff]
        intro o ho
        simp only [beq_iff_eq] at ha ⊢
        intro hoc
        exact h.1 ⟨o, ho, by rw [hoc, ha]⟩
      simp [List.filter_cons, List.find?_cons, ha, ht]
    · simp only [List.filter_cons, List.find?_cons, ha]
      simpa using ih h.2

/-- With unique override keys, the override layer is the per-row patch:
a row whose `lucode` has an override entry takes the entry's value
(falling back to its own value when the entry's cell is NaN), every other
row is unchanged, and no rows are added or dropped. -/
lemma applyOverrides_eq_map (full : List AggRow) (ov : List OverrideRow)
    (h : (ov.map OverrideRow.lucode).Nodup) :
    applyOverrides full ov = full.map fun r =>
      match ov.find? fun o => o.lucode == r.lucode with
      | none => r
      | some o => ⟨r.lucode, o.c_above_override.getD r.c_above, r.defaulted⟩ := by
  induction full with
  | nil => rfl
  | cons a t ih =>
    have hstep : applyOverrides (a :: t) ov =
        (match ov.filter (fun o => o.lucode == a.lucode) with
         | [] => [a]
         | ms => ms.map fun o => ⟨a.lucode, o.c_above_override.getD a.c_above, a.defaulted⟩)
        ++ applyOverrides t ov := rfl
    rw [hstep, ih, filter_key_eq_find_toList OverrideRow.lucode ov a.lucode h]
    cases hf : ov.find? fun o => o.lucode == a.lucode with
    | none => simp only [Option.toList, List.map_cons]
              rw [hf]
              rfl
    | some o => simp only [Option.toList, List.map_cons]
                rw [hf]
                rfl

/-- **C10** (amended). For every aggregated table and override collection
with unique codes, the Expert Override Layer replaces `c_above` for every
row whose `lucode` appears in the override collection (override always
wins, regardless of the `defaulted` flag) and keeps every other row
unchanged; override codes with no row in the 17-row table are ignored.
In the worked example, lucode 3 becomes 999.0 *and lucode 9 becomes 5.0*
(it is in the 17-row table), with all other codes unchanged. -/
theorem claim_C10_override_layer_amended :
    (∀ (full : List AggRow) (ov : List OverrideRow),
        (ov.map OverrideRow.lucode).Nodup →
        applyOverrides full ov = full.map fun r =>
          match ov.find? fun o => o.lucode == r.lucode with
          | none => r
          | some o => ⟨r.lucode, o.c_above_override.getD r.c_above, r.defaulted⟩) ∧
    applyOverrides aggC10 ovC10 =
      [⟨1, 0, true⟩, ⟨2, 0, true⟩, ⟨3, 999, false⟩, ⟨4, 0, true⟩, ⟨5, 0, true⟩,
       ⟨6, 0, true⟩, ⟨7, 0, true⟩, ⟨8, 0, true⟩, ⟨9, 5, true⟩, ⟨10, 0, true⟩,
       ⟨11, 0, true⟩, ⟨12, 0, true⟩, ⟨13, 0, true⟩, ⟨14, 0, true⟩, ⟨15, 0, true⟩,
       ⟨16, 0, true⟩, ⟨17, 0, true⟩] :=
  ⟨applyOverrides_eq_map, by rfl⟩

/-- Witness for the amended C10: the worked example's override collection
has unique codes. -/
theorem claim_C10_override_layer_amended_witness :
    applyOverrides aggC10 ovC10 = aggC10.map fun r =>
      match ovC10.find? fun o => o.lucode == r.lucode with
      | none => r
      | some o => ⟨r.lucode, o.c_above_override.getD r.c_above, r.defaulted⟩ :=
  claim_C10_override_layer_amended.1 aggC10 ovC10 (by decide)

/-- Over a lookup table without NaN carbon values, the guard's
`isna().all()` is exactly "no row had a primary 4-key match". -/
lemma primaryJoin_all_none_iff (df : List PreRow) (lut : List LutRow)
    (hlut : ∀ e ∈ lut, e.carbon_value.isSome) :
    ((primaryJoin df lut).all fun r => r.carbon_value.isNone) = noPrimaryMatch df lut := by
  induction df with
  | nil => rfl
  | cons a t ih =>
    have hstep : primaryJoin (a :: t) lut =
        (match primaryMatches lut a with
         | [] => [⟨a.lulc, a.cz, a.count, a.region, a.gez, a.frontier, none⟩]
         | ms => ms.map fun e =>
            ⟨a.lulc, a.cz, a.count, a.region, a.gez, a.frontier, e.carbon_value⟩)
        ++ primaryJoin t lut := rfl
    have hrhs : noPrimaryMatch (a :: t) lut =
        ((primaryMatches lut a).isEmpty && noPrimaryMatch t lut) := by
      simp [noPrimaryMatch]
    rw [hstep, hrhs]
    cases hm : primaryMatches lut a with
    | nil => simpa using ih
    | cons e ms =>
      have hmem : e ∈ primaryMatches lut a := by
        rw [hm]
        exact List.mem_cons_self e ms
      have hmem' : e ∈ lut.filter fun x =>
          x.region == a.region && x.gez == a.gez &&
            x.frontier == a.frontier && x.lulc == a.lulc := hmem
      have he : e.carbon_value.isSome := hlut e (List.mem_of_mem_filter hmem')
      simp [List.all_append, Option.isNone_iff_eq_none]
      intro hnone
      rw [hnone] at he
      cases he

/-- **C7** (amended). Over lookup tables whose carbon values are all
present, the degraded CODE-path fallback runs if and only if the primary
4-key join produced zero matches across the whole dataset *and* the frame
carries the `CODE` column; when it runs the frame is re-joined on the
`LULC` code alone; when it does not run, the output is exactly the primary
join (primary matches are never overridden), and every row without a
primary match carries an absent `carbon_value` forward. -/
theorem claim_C7_code_fallback_amended :
    (∀ (df : List PreRow) (lut : List LutRow) (hasCODE : Bool),
        (∀ e ∈ lut, e.carbon_value.isSome) →
        usesCodeFallback df lut hasCODE = (noPrimaryMatch df lut && hasCODE)) ∧
    (∀ (df : List PreRow) (lut : List LutRow) (hasCODE : Bool),
        usesCodeFallback df lut hasCODE = true →
        lookupStage df lut hasCODE = codeFallbackJoin df lut) ∧
    (∀ (df : List PreRow) (lut : List LutRow) (hasCODE : Bool),
        usesCodeFallback df lut hasCODE = false →
        lookupStage df lut hasCODE = primaryJoin df lut) ∧
    (∀ (df : List PreRow) (lut : List LutRow) (r : PreRow), r ∈ df →
        primaryMatches lut r = [] →
        (⟨r.lulc, r.cz, r.count, r.region, r.gez, r.frontier, none⟩ : PostRow) ∈
          primaryJoin df lut) := by
  refine ⟨?_, ?_, ?_, ?_⟩
  · intro df lut hasCODE hlut
    rw [usesCodeFallback, primaryJoin_all_none_iff df lut hlut]
  · intro df lut hasCODE h
    rw [lookupStage, if_pos h]
  · intro df lut hasCODE h
    rw [lookupStage, if_neg (by simp [h])]
  · intro df lut r hr hm
    refine List.mem_flatMap.mpr ⟨r, hr, ?_⟩
    rw [hm]
    exact List.mem_singleton_self _

/-- Witness for the amended C7 at the concrete one-row frame and lookup
table (all lookup values present). -/
theorem claim_C7_code_fallback_amended_witness :
    usesCodeFallback dfC7 lutC7 true = (noPrimaryMatch dfC7 lutC7 && true) :=
  claim_C7_code_fallback_amended.1 dfC7 lutC7 true (by decide)

/-- **C7** (counterexample to the claim as stated). A one-row frame with
zero primary matches whose zone layer lacks the `CODE` column: the
fallback does *not* run (the guard also requires the `CODE` column), the
row keeps an absent `carbon_value` — whereas with the `CODE` column
present the fallback runs and joins on `LULC` alone, filling 5.0. -/
theorem claim_C7_zero_matches_without_code_column :
    noPrimaryMatch dfC7 lutC7 = true ∧
    usesCodeFallback dfC7 lutC7 false = false ∧
    lookupStage dfC7 lutC7 false = [⟨1, 1, 1, "A", "B", "0", none⟩] ∧
    lookupStage dfC7 lutC7 true = [⟨1, 1, 1, "A", "B", "0", some 5⟩] :=
  ⟨rfl, rfl, rfl, rfl⟩

/-- The savanna rule tag always differs from the untouched marker
`"none"` (it is at least 16 characters long). -/
lemma savannaTag_ne_none (frac : ℚ) : savannaTag frac ≠ "none" := by
  rw [savannaTag]
  intro h
  have hl := congrArg String.length h
  rw [String.length_append, String.length_append] at hl
  have h1 : "savanna=".length = 8 := rfl
  have h2 : "%_forest".length = 8 := rfl
  have h3 : "none".length = 4 := rfl
  omega

/-- Per-row frame effect of the rule chain: the `LULC` and `CARBON_VALUE`
columns are copied; a row with a present raw value keeps it as its
adjusted value and stays untagged; and an untagged row's adjusted value is
exactly its raw value (so an untouched absent row stays absent). -/
lemma applyRulesRow_frame (cfg : RuleConfig) (fr sr : Option ℚ) (r : RuleRow) :
    (applyRulesRow cfg fr sr r).lulc = r.lulc ∧
    (applyRulesRow cfg fr sr r).carbon_value = r.carbon_value ∧
    (r.carbon_value.isSome →
      (applyRulesRow cfg fr sr r).carbon_value_adj = r.carbon_value ∧
      (applyRulesRow cfg fr sr r).rule_applied = "none") ∧
    ((applyRulesRow cfg fr sr r).rule_applied = "none" →
      (applyRulesRow cfg fr sr r).carbon_value_adj = r.carbon_value) := by
  obtain ⟨sp, ww, mq⟩ := cfg
  obtain ⟨l, cv⟩ := r
  cases fr <;> cases sr <;> cases sp <;> cases ww <;> cases mq <;> cases cv <;>
    simp [applyRulesRow] <;> split_ifs <;>
    simp_all [savannaTag_ne_none]

/-- Pointwise transport of a relation along a `map`. -/
lemma forall₂_map_self {α β : Type} (P : α → β → Prop) (g : α → β)
    (h : ∀ a, P a (g a)) : ∀ l : List α, List.Forall₂ P l (l.map g)
  | [] => List.Forall₂.nil
  | a :: t => List.Forall₂.cons (h a) (forall₂_map_self P g h t)

/-- **C5.** Row-by-row, `apply_fallback_rules` copies the raw value; a row
with a present raw value keeps it unchanged as its adjusted value and
keeps `rule_applied = "none"` (so only absent-raw rows can receive a new
value and a tag); and every row left untagged has its adjusted value equal
to its raw value — in particular an untouched absent row keeps an absent
adjusted value. -/
theorem claim_C5_fill_only_if_missing (rows : List RuleRow) (cfg : RuleConfig) :
    List.Forall₂ (fun (r : RuleRow) (o : RuleOutRow) =>
        o.carbon_value = r.carbon_value ∧
        (r.carbon_value.isSome →
          o.carbon_value_adj = r.carbon_value ∧ o.rule_applied = "none") ∧
        (o.rule_applied = "none" → o.carbon_value_adj = r.carbon_value))
      rows (apply_fallback_rules rows cfg) := by
  show List.Forall₂ _ rows
    (rows.map (applyRulesRow cfg (refMean rows [1, 2, 3, 4]) (refMean rows [6, 7])))
  refine forall₂_map_self _ _ (fun r => ?_) rows
  obtain ⟨-, h2, h3, h4⟩ :=
    applyRulesRow_frame cfg (refMean rows [1, 2, 3, 4]) (refMean rows [6, 7]) r
  exact ⟨h2, h3, h4⟩

/-- **C6.** `apply_fallback_rules` is idempotent: running it again on its
own output (which carries the same `LULC` and `CARBON_VALUE` columns)
reproduces the same frame — identical adjusted values and rule tags. -/
theorem claim_C6_fallback_rules_idempotent (rows : List RuleRow) (cfg : RuleConfig) :
    apply_fallback_rules ((apply_fallback_rules rows cfg).map ruleOutToRow) cfg =
      apply_fallback_rules rows cfg := by
  have hproj : (apply_fallback_rules rows cfg).map ruleOutToRow = rows := by
    show (rows.map
        (applyRulesRow cfg (refMean rows [1, 2, 3, 4]) (refMean rows [6, 7]))).map
        ruleOutToRow = rows
    rw [List.map_map]
    have hcomp : ruleOutToRow ∘
        applyRulesRow cfg (refMean rows [1, 2, 3, 4]) (refMean rows [6, 7]) = id := by
      funext r
      rfl
    rw [hcomp, List.map_id]
  rw [hproj]

/-- Membership in an insertion step. -/
lemma mem_insertSorted (x y : ℤ) : ∀ l : List ℤ, (y ∈ insertSorted x l) ↔ y = x ∨ y ∈ l
  | [] => by simp [insertSorted]
  | a :: t => by
    rw [insertSorted]
    split_ifs with h
    · simp [List.mem_cons]
    · rw [List.mem_cons, mem_insertSorted x y t, List.mem_cons]
      tauto

/-- Inserting a fresh element preserves `Nodup`. -/
lemma nodup_insertSorted (x : ℤ) :
    ∀ l : List ℤ, l.Nodup → x ∉ l → (insertSorted x l).Nodup
  | [], _, _ => List.nodup_singleton x
  | a :: t, hnd, hx => by
    rw [List.nodup_cons] at hnd
    rw [insertSorted]
    split_ifs with h
    · exact List.nodup_cons.mpr ⟨hx, List.nodup_cons.mpr hnd⟩
    · refine List.nodup_cons.mpr ⟨?_, nodup_insertSorted x t hnd.2
        fun hxt => hx (List.mem_cons_of_mem a hxt)⟩
      intro ha
      rcases (mem_insertSorted x a t).mp ha with h1 | h1
      · exact hx (h1 ▸ List.mem_cons_self a t)
      · exact hnd.1 h1

/-- Sorting preserves membership. -/
lemma mem_sortInts (y : ℤ) : ∀ l : List ℤ, (y ∈ sortInts l) ↔ y ∈ l
  | [] => Iff.rfl
  | a :: t => by
    show (y ∈ insertSorted a (sortInts t)) ↔ _
    rw [mem_insertSorted a y (sortInts t), mem_sortInts y t, List.mem_cons]

/-- Sorting preserves `Nodup`. -/
lemma nodup_sortInts : ∀ l : List ℤ, l.Nodup → (sortInts l).Nodup
  | [], _ => List.nodup_nil
  | a :: t, h => by
    rw [List.nodup_cons] at h
    show (insertSorted a (sortInts t)).Nodup
    exact nodup_insertSorted a (sortInts t) (nodup_sortInts t h.2)
      fun hm => h.1 ((mem_sortInts a t).mp hm)

/-- Sums of pointwise sums of naturals split. -/
lemma sum_map_add {α : Type} (l : List α) (f g : α → ℕ) :
    (l.map fun a => f a + g a).sum = (l.map f).sum + (l.map g).sum := by
  induction l with
  | nil => rfl
  | cons a t ih =>
    simp only [List.map_cons, List.sum_cons, ih]
    omega

/-- An indicator summed over a list avoiding the point vanishes. -/
lemma sum_indicator_zero (zs : List ℤ) (x : ℤ) (hx : x ∉ zs) :
    (zs.map fun z => if x = z then (1 : ℕ) else 0).sum = 0 := by
  induction zs with
  | nil => rfl
  | cons z t ih =>
    rw [List.mem_cons, not_or] at hx
    simp [hx.1, ih hx.2]

/-- An indicator summed over a `Nodup` list through the point is 1. -/
lemma sum_indicator_one (zs : List ℤ) (hnd : zs.Nodup) (x : ℤ) (hx : x ∈ zs) :
    (zs.map fun z => if x = z then (1 : ℕ) else 0).sum = 1 := by
  induction zs with
  | nil => cases hx
  | cons z t ih =>
    rw [List.nodup_cons] at hnd
    rcases List.mem_cons.mp hx with h | h
    · subst h
      simp [sum_indicator_zero t x hnd.1]
    · have hxz : x ≠ z := fun he => hnd.1 (he ▸ h)
      simp [hxz, ih hnd.2 h]

/-- Partitioning the cells with first component `c` by their second
component over a duplicate-free list of zone ids covering them. -/
lemma sum_counts_partition (c : ℤ) (zs : List ℤ) (hnd : zs.Nodup) :
    ∀ cells : List (ℤ × ℤ), (∀ q ∈ cells, q.1 = c → q.2 ∈ zs) →
      (zs.map fun z => (cells.filter fun q => q.1 == c && q.2 == z).length).sum
        = (cells.filter fun q => q.1 == c).length
  | [], _ => by simp
  | q :: rest, hcov => by
    have hrest := sum_counts_partition c zs hnd rest
      fun p hp => hcov p (List.mem_cons_of_mem q hp)
    by_cases hqc : q.1 = c
    · have hq2 : q.2 ∈ zs := hcov q (List.mem_cons_self q rest) hqc
      have hsplit : (zs.map fun z =>
            ((q :: rest).filter fun p => p.1 == c && p.2 == z).length).sum
          = (zs.map fun z => (if q.2 = z then (1 : ℕ) else 0)
              + (rest.filter fun p => p.1 == c && p.2 == z).length).sum := by
        congr 1
        refine List.map_congr_left fun z _ => ?_
        rw [List.filter_cons]
        by_cases hz : q.2 = z
        · simp [hqc, hz]
          omega
        · simp [hqc, hz]
      rw [hsplit, sum_map_add, sum_indicator_one zs hnd q.2 hq2, hrest,
        List.filter_cons]
      simp [hqc]
      omega
    · have hsplit : (zs.map fun z =>
            ((q :: rest).filter fun p => p.1 == c && p.2 == z).length).sum
          = (zs.map fun z => (rest.filter fun p => p.1 == c && p.2 == z).length).sum := by
        congr 1
        refine List.map_congr_left fun z _ => ?_
        rw [List.filter_cons]
        simp [hqc]
      rw [hsplit, hrest, List.filter_cons]
      simp [hqc]

/-- Filtering one land-cover block of the cross-tab keeps all of it or
none of it. -/
lemma filter_chunk (zs : List ℤ) (cnt : ℤ → ℤ → ℕ) (l c : ℤ) :
    ((zs.map fun z => (⟨l, z, cnt l z⟩ : CTRow)).filter fun r => r.lulc == c)
      = if l = c then zs.map fun z => (⟨l, z, cnt l z⟩ : CTRow) else [] := by
  split_ifs with h
  · subst h
    refine List.filter_eq_self.mpr fun r hr => ?_
    rcases List.mem_map.mp hr with ⟨z, _, rfl⟩
    simp
  · refine List.filter_eq_nil_iff.mpr fun r hr => ?_
    rcases List.mem_map.mp hr with ⟨z, _, rfl⟩
    simp [h]

/-- Summing the counts of the rows with land-cover `c` over the row-major
block structure of the cross-tab. -/
lemma flatMap_block_sum (zs : List ℤ) (cnt : ℤ → ℤ → ℕ) (c : ℤ) :
    ∀ ls : List ℤ, ls.Nodup →
      ((((ls.flatMap fun l => zs.map fun z => (⟨l, z, cnt l z⟩ : CTRow)).filter
          fun r => r.lulc == c).map CTRow.count).sum)
        = if c ∈ ls then (zs.map fun z => cnt c z).sum else 0
  | [], _ => by simp
  | l :: t, hnd => by
    rw [List.nodup_cons] at hnd
    rw [List.flatMap_cons, List.filter_append, List.map_append, List.sum_append,
      filter_chunk zs cnt l c, flatMap_block_sum zs cnt c t hnd.2]
    by_cases hlc : l = c
    · subst hlc
      simp [hnd.1, List.map_map, Function.comp_def]
    · have hcl : ¬(c = l) := fun he => hlc he.symm
      simp [hlc, List.mem_cons, hcl]

/-- For any cell list, the counts of the cross-tab rows carrying a fixed
land-cover code sum to the number of cells with that code. -/
lemma crossTab_sum_counts (cells : List (ℤ × ℤ)) (c : ℤ) :
    (((crossTab cells).filter fun r => r.lulc == c).map CTRow.count).sum
      = (cells.filter fun q => q.1 == c).length := by
  have hndl : (sortInts (cells.map Prod.fst).dedup).Nodup :=
    nodup_sortInts _ (List.nodup_dedup _)
  have hndz : (sortInts (cells.map Prod.snd).dedup).Nodup :=
    nodup_sortInts _ (List.nodup_dedup _)
  show ((((sortInts (cells.map Prod.fst).dedup).flatMap fun l =>
      (sortInts (cells.map Prod.snd).dedup).map fun z =>
        (⟨l, z, (cells.filter fun q => q.1 == l && q.2 == z).length⟩ : CTRow)).filter
      fun r => r.lulc == c).map CTRow.count).sum = _
  rw [flatMap_block_sum _ (fun l z => (cells.filter fun q => q.1 == l && q.2 == z).length)
    c _ hndl]
  by_cases hc : c ∈ sortInts (cells.map Prod.fst).dedup
  · rw [if_pos hc]
    refine sum_counts_partition c _ hndz cells fun q hq _ => ?_
    exact (mem_sortInts q.2 _).mpr (List.mem_dedup.mpr (List.mem_map_of_mem Prod.snd hq))
  · rw [if_neg hc]
    symm
    rw [List.length_eq_zero, List.filter_eq_nil_iff]
    intro q hq
    simp only [beq_iff_eq]
    intro hqc
    exact hc ((mem_sortInts c _).mpr (List.mem_dedup.mpr
      (List.mem_map.mpr ⟨q, hq, hqc⟩)))

/-- The cells surviving the mask with a fixed land-cover code are exactly
the grid positions holding that code inside a zone. -/
lemma maskedCells_filter_length (l : List (Option ℤ × ℤ)) (c : ℤ) :
    ((l.filterMap fun p =>
        match p.1 with
        | some v => if 0 < p.2 then some (v, p.2) else none
        | none => none).filter fun q => q.1 == c).length
      = (l.filter fun p => p.1 == some c && decide (0 < p.2)).length := by
  induction l with
  | nil => rfl
  | cons p t ih =>
    rcases p with ⟨a, z⟩
    cases a with
    | none => simpa [List.filterMap_cons, List.filter_cons] using ih
    | some v =>
      by_cases hz : 0 < z
      · by_cases hvc : v = c
        · subst hvc
          simpa [List.filterMap_cons, List.filter_cons, hz] using ih
        · simpa [List.filterMap_cons, List.filter_cons, hz, hvc] using ih
      · simpa [List.filterMap_cons, List.filter_cons, hz] using ih

/-- **C9.** For every land-cover code, the pixel counts of all cross-tab
rows carrying that code sum to the number of grid cells holding that code
whose zone id is positive and whose land-cover value is not the no-data
sentinel (NaN). -/
theorem claim_C9_crosstab_count_invariant (lulc : List (Option ℤ)) (cz : List ℤ)
    (c : ℤ) :
    (((crossTab (maskedCells lulc cz)).filter fun r => r.lulc == c).map
        CTRow.count).sum
      = ((lulc.zip cz).filter fun p => p.1 == some c && decide (0 < p.2)).length := by
  rw [crossTab_sum_counts]
  exact maskedCells_filter_length (lulc.zip cz) c

end PoloptCarbon
